import Mathlib

/-!
Verification of the tangerine-consensus specification against the sources.

The development shallowly embeds the parts of the repository the claims
touch:

* `src/core/types/config.go` — the persisted `Config` wire format
  (`Config.Bytes`), embedded as `GoConfig.bytes` over byte lists.
* the syncer (`SyncBlocks`, `findLatticeSyncBlock`, `checkIfSynced`,
  `isConfigChanged`) from the syncer consensus source included in
  `src/README.md`.
* `VerifyTotalOrder` from the simulation application
  (`src/simulation/app_test.go` package, app source in the same bundle).
* the total-ordering vector operations (acking-status vectors, the
  acking-height vector, the acking node set, the grade function) and the
  total-ordering engine.  The implementation file of the total ordering is
  not part of the staged sources — only its unit-test suite is — so these
  definitions are modelled from the spec, with every place the spec's
  wording disagrees with the in-repository unit tests resolved in favour
  of the tests (each such place is noted in the doc comment of the
  definition).

Machine integers are embedded as `Nat`/`Int` with explicit reduction
modulo 2^w where the Go code truncates.
-/

namespace TangerineSpec

/-! ### Little-endian serialisation helpers (binary.LittleEndian.PutUintN) -/

/-- `w` little-endian bytes of `x` (`binary.LittleEndian.PutUint32/64`). -/
def byteLE : Nat → Nat → List Nat
  | 0, _ => []
  | w + 1, x => x % 256 :: byteLE w (x / 256)

theorem byteLE_length (w x : Nat) : (byteLE w x).length = w := by
  induction w generalizing x with
  | zero => rfl
  | succ w ih => simp [byteLE, ih]

theorem take_append_of_length {α : Type} (l₁ l₂ : List α) (n : Nat)
    (h : l₁.length = n) : (l₁ ++ l₂).take n = l₁ := by
  subst h
  simp [List.take_left]

theorem drop_append_of_length {α : Type} (l₁ l₂ : List α) (n : Nat)
    (h : l₁.length = n) : (l₁ ++ l₂).drop n = l₂ := by
  subst h
  simp [List.drop_left]

/-! ### Config and its wire format (src/core/types/config.go) -/

/-- `types.Config` (src/core/types/config.go, lines 27-48).  Durations are
kept as their nanosecond counts (`time.Duration` is an int64 of
nanoseconds, and `Bytes` serialises `d.Nanoseconds()`).  `PhiRatio` is a
`float32`; `Bytes` only ever uses `math.Float32bits(c.PhiRatio)`, so the
field is embedded by that 32-bit pattern (`phiRatioBits`), which loses no
information relevant to serialisation. -/
structure GoConfig where
  numChains : Nat
  lambdaBA : Int
  lambdaDKG : Int
  kParam : Int
  phiRatioBits : Nat
  numNotarySet : Int
  numWitnessSet : Int
  numDKGSet : Int
  roundInterval : Int
  minBlockInterval : Int
  maxBlockInterval : Int

/-- Go's `uint32(x)` on a non-negative quantity. -/
def uint32Of (x : Nat) : Nat := x % 2 ^ 32

/-- Go's `uint32(x)` on an `int` (two's-complement truncation). -/
def uint32OfInt (x : Int) : Nat := (x % 2 ^ 32).toNat

/-- Go's `uint64(x)` on an `int64` (two's-complement). -/
def uint64OfInt (x : Int) : Nat := (x % 2 ^ 64).toNat

/-- `Config.Bytes` (src/core/types/config.go, lines 51-97): the eleven
fields serialised little-endian and appended in source order. -/
def GoConfig.bytes (c : GoConfig) : List Nat :=
  byteLE 4 (uint32Of c.numChains) ++
    (byteLE 8 (uint64OfInt c.lambdaBA) ++
      (byteLE 8 (uint64OfInt c.lambdaDKG) ++
        (byteLE 4 (uint32OfInt c.kParam) ++
          (byteLE 4 (uint32Of c.phiRatioBits) ++
            (byteLE 4 (uint32OfInt c.numNotarySet) ++
              (byteLE 4 (uint32OfInt c.numWitnessSet) ++
                (byteLE 4 (uint32OfInt c.numDKGSet) ++
                  (byteLE 8 (uint64OfInt c.roundInterval) ++
                    (byteLE 8 (uint64OfInt c.minBlockInterval) ++
                      byteLE 8 (uint64OfInt c.maxBlockInterval))))))))))

/-- Claim C8.  `Config.Bytes` returns exactly 64 bytes in the fixed
little-endian layout: num_chains (u32) at offset 0, lambda_ba (i64 ns) at
4, lambda_dkg at 12, K (u32) at 20, phi_ratio (f32 bits, LE) at 24,
num_notary_set at 28, num_witness_set at 32, num_dkg_set at 36,
round_interval (i64 ns) at 40, min_block_interval at 48 and
max_block_interval at 56. -/
theorem config_bytes_layout (c : GoConfig) :
    c.bytes.length = 64 ∧
    c.bytes.take 4 = byteLE 4 (uint32Of c.numChains) ∧
    (c.bytes.drop 4).take 8 = byteLE 8 (uint64OfInt c.lambdaBA) ∧
    (c.bytes.drop 12).take 8 = byteLE 8 (uint64OfInt c.lambdaDKG) ∧
    (c.bytes.drop 20).take 4 = byteLE 4 (uint32OfInt c.kParam) ∧
    (c.bytes.drop 24).take 4 = byteLE 4 (uint32Of c.phiRatioBits) ∧
    (c.bytes.drop 28).take 4 = byteLE 4 (uint32OfInt c.numNotarySet) ∧
    (c.bytes.drop 32).take 4 = byteLE 4 (uint32OfInt c.numWitnessSet) ∧
    (c.bytes.drop 36).take 4 = byteLE 4 (uint32OfInt c.numDKGSet) ∧
    (c.bytes.drop 40).take 8 = byteLE 8 (uint64OfInt c.roundInterval) ∧
    (c.bytes.drop 48).take 8 = byteLE 8 (uint64OfInt c.minBlockInterval) ∧
    c.bytes.drop 56 = byteLE 8 (uint64OfInt c.maxBlockInterval) := by
  have h4 : c.bytes.drop 4 =
      byteLE 8 (uint64OfInt c.lambdaBA) ++
        (byteLE 8 (uint64OfInt c.lambdaDKG) ++
          (byteLE 4 (uint32OfInt c.kParam) ++
            (byteLE 4 (uint32Of c.phiRatioBits) ++
              (byteLE 4 (uint32OfInt c.numNotarySet) ++
                (byteLE 4 (uint32OfInt c.numWitnessSet) ++
                  (byteLE 4 (uint32OfInt c.numDKGSet) ++
                    (byteLE 8 (uint64OfInt c.roundInterval) ++
                      (byteLE 8 (uint64OfInt c.minBlockInterval) ++
                        byteLE 8 (uint64OfInt c.maxBlockInterval))))))))) :=
    drop_append_of_length _ _ _ (byteLE_length 4 _)
  have h12 : c.bytes.drop 12 =
      byteLE 8 (uint64OfInt c.lambdaDKG) ++
        (byteLE 4 (uint32OfInt c.kParam) ++
          (byteLE 4 (uint32Of c.phiRatioBits) ++
            (byteLE 4 (uint32OfInt c.numNotarySet) ++
              (byteLE 4 (uint32OfInt c.numWitnessSet) ++
                (byteLE 4 (uint32OfInt c.numDKGSet) ++
                  (byteLE 8 (uint64OfInt c.roundInterval) ++
                    (byteLE 8 (uint64OfInt c.minBlockInterval) ++
                      byteLE 8 (uint64OfInt c.maxBlockInterval)))))))) := by
    have e : c.bytes.drop 12 = (c.bytes.drop 4).drop 8 := by
      simp [List.drop_drop]
    rw [e, h4, drop_append_of_length _ _ _ (byteLE_length 8 _)]
  have h20 : c.bytes.drop 20 =
      byteLE 4 (uint32OfInt c.kParam) ++
        (byteLE 4 (uint32Of c.phiRatioBits) ++
          (byteLE 4 (uint32OfInt c.numNotarySet) ++
            (byteLE 4 (uint32OfInt c.numWitnessSet) ++
              (byteLE 4 (uint32OfInt c.numDKGSet) ++
                (byteLE 8 (uint64OfInt c.roundInterval) ++
                  (byteLE 8 (uint64OfInt c.minBlockInterval) ++
                    byteLE 8 (uint64OfInt c.maxBlockInterval))))))) := by
    have e : c.bytes.drop 20 = (c.bytes.drop 12).drop 8 := by
      simp [List.drop_drop]
    rw [e, h12, drop_append_of_length _ _ _ (byteLE_length 8 _)]
  have h24 : c.bytes.drop 24 =
      byteLE 4 (uint32Of c.phiRatioBits) ++
        (byteLE 4 (uint32OfInt c.numNotarySet) ++
          (byteLE 4 (uint32OfInt c.numWitnessSet) ++
            (byteLE 4 (uint32OfInt c.numDKGSet) ++
              (byteLE 8 (uint64OfInt c.roundInterval) ++
                (byteLE 8 (uint64OfInt c.minBlockInterval) ++
                  byteLE 8 (uint64OfInt c.maxBlockInterval)))))) := by
    have e : c.bytes.drop 24 = (c.bytes.drop 20).drop 4 := by
      simp [List.drop_drop]
    rw [e, h20, drop_append_of_length _ _ _ (byteLE_length 4 _)]
  have h28 : c.bytes.drop 28 =
      byteLE 4 (uint32OfInt c.numNotarySet) ++
        (byteLE 4 (uint32OfInt c.numWitnessSet) ++
          (byteLE 4 (uint32OfInt c.numDKGSet) ++
            (byteLE 8 (uint64OfInt c.roundInterval) ++
              (byteLE 8 (uint64OfInt c.minBlockInterval) ++
                byteLE 8 (uint64OfInt c.maxBlockInterval))))) := by
    have e : c.bytes.drop 28 = (c.bytes.drop 24).drop 4 := by
      simp [List.drop_drop]
    rw [e, h24, drop_append_of_length _ _ _ (byteLE_length 4 _)]
  have h32 : c.bytes.drop 32 =
      byteLE 4 (uint32OfInt c.numWitnessSet) ++
        (byteLE 4 (uint32OfInt c.numDKGSet) ++
          (byteLE 8 (uint64OfInt c.roundInterval) ++
            (byteLE 8 (uint64OfInt c.minBlockInterval) ++
              byteLE 8 (uint64OfInt c.maxBlockInterval)))) := by
    have e : c.bytes.drop 32 = (c.bytes.drop 28).drop 4 := by
      simp [List.drop_drop]
    rw [e, h28, drop_append_of_length _ _ _ (byteLE_length 4 _)]
  have h36 : c.bytes.drop 36 =
      byteLE 4 (uint32OfInt c.numDKGSet) ++
        (byteLE 8 (uint64OfInt c.roundInterval) ++
          (byteLE 8 (uint64OfInt c.minBlockInterval) ++
            byteLE 8 (uint64OfInt c.maxBlockInterval))) := by
    have e : c.bytes.drop 36 = (c.bytes.drop 32).drop 4 := by
      simp [List.drop_drop]
    rw [e, h32, drop_append_of_length _ _ _ (byteLE_length 4 _)]
  have h40 : c.bytes.drop 40 =
      byteLE 8 (uint64OfInt c.roundInterval) ++
        (byteLE 8 (uint64OfInt c.minBlockInterval) ++
          byteLE 8 (uint64OfInt c.maxBlockInterval)) := by
    have e : c.bytes.drop 40 = (c.bytes.drop 36).drop 4 := by
      simp [List.drop_drop]
    rw [e, h36, drop_append_of_length _ _ _ (byteLE_length 4 _)]
  have h48 : c.bytes.drop 48 =
      byteLE 8 (uint64OfInt c.minBlockInterval) ++
        byteLE 8 (uint64OfInt c.maxBlockInterval) := by
    have e : c.bytes.drop 48 = (c.bytes.drop 40).drop 8 := by
      simp [List.drop_drop]
    rw [e, h40, drop_append_of_length _ _ _ (byteLE_length 8 _)]
  have h56 : c.bytes.drop 56 = byteLE 8 (uint64OfInt c.maxBlockInterval) := by
    have e : c.bytes.drop 56 = (c.bytes.drop 48).drop 8 := by
      simp [List.drop_drop]
    rw [e, h48, drop_append_of_length _ _ _ (byteLE_length 8 _)]
  refine ⟨?_, ?_, ?_, ?_, ?_, ?_, ?_, ?_, ?_, ?_, ?_, ?_⟩
  · simp [GoConfig.bytes, byteLE_length]
  · exact take_append_of_length _ _ _ (byteLE_length 4 _)
  · rw [h4]; exact take_append_of_length _ _ _ (byteLE_length 8 _)
  · rw [h12]; exact take_append_of_length _ _ _ (byteLE_length 8 _)
  · rw [h20]; exact take_append_of_length _ _ _ (byteLE_length 4 _)
  · rw [h24]; exact take_append_of_length _ _ _ (byteLE_length 4 _)
  · rw [h28]; exact take_append_of_length _ _ _ (byteLE_length 4 _)
  · rw [h32]; exact take_append_of_length _ _ _ (byteLE_length 4 _)
  · rw [h36]; exact take_append_of_length _ _ _ (byteLE_length 4 _)
  · rw [h40]; exact take_append_of_length _ _ _ (byteLE_length 8 _)
  · rw [h48]; exact take_append_of_length _ _ _ (byteLE_length 8 _)
  · exact h56

/-- A sample configuration, used to evaluate `GoConfig.bytes` concretely. -/
def cfgSample : GoConfig :=
  { numChains := 7, lambdaBA := 250000000, lambdaDKG := 1000000000,
    kParam := 2, phiRatioBits := 1060320051, numNotarySet := 7,
    numWitnessSet := 7, numDKGSet := 7, roundInterval := 90000000000,
    minBlockInterval := 900000000, maxBlockInterval := 2000000000 }

theorem config_bytes_layout_witness :
    cfgSample.bytes.length = 64 ∧
    cfgSample.bytes.take 4 = byteLE 4 (uint32Of cfgSample.numChains) :=
  ⟨(config_bytes_layout cfgSample).1, (config_bytes_layout cfgSample).2.1⟩

/-! ### Syncer (syncer consensus source bundled in src/README.md) -/

/-- The errors the syncer surfaces (src/README.md lines 200-207).
`dbMiss` stands for a failed `con.db.Get`. -/
inductive SyncError where
  | alreadySynced
  | genesisBlockReached
  | invalidBlockOrder
  | dbMiss
deriving DecidableEq

/-- `types.Position`.  The type itself is not among the staged files; its
fields follow the spec's data model (`position: {round, chain, height}`). -/
structure SPosition where
  round : Nat
  chainID : Nat
  height : Nat
deriving DecidableEq

/-- Modelled from the spec: `types.Position.Older` is absent from the
staged sources; `older` is the natural order on positions the spec's
"older (by position)" refers to — earlier round, or same round and lower
height. -/
def SPosition.older (p q : SPosition) : Bool :=
  p.round < q.round || (p.round == q.round && p.height < q.height)

/-- The projection of `types.Block` the syncer uses: hash, position,
finalization parent hash and finalization height.  Hash `0` stands for the
zero `common.Hash`. -/
structure SBlock where
  hash : Nat
  pos : SPosition
  finParentHash : Nat
  finHeight : Nat
deriving DecidableEq

/-- The three total-ordering fields of a round's config that
`isConfigChanged` compares.  `phiRatioBits` is the float32 pattern of
`PhiRatio` (bit-equality coincides with Go's `!=` on the finite values a
config carries). -/
structure TOCfg where
  kParam : Nat
  numChains : Nat
  phiRatioBits : Nat
deriving DecidableEq

/-- `Consensus.isConfigChanged` (src/README.md lines 813-817). -/
def isConfigChanged (prev cur : TOCfg) : Bool :=
  prev.kParam != cur.kParam || prev.numChains != cur.numChains ||
    prev.phiRatioBits != cur.phiRatioBits

/-- The round-walk of `findLatticeSyncBlock` (src/README.md lines
408-424): starting at `round`, find the first round `r` (walking down)
whose configs at `r-1`, `r`, `r+1` agree on the total-ordering fields;
`none` when the walk reaches round 0 without a hit.  `cfg` is the syncer's
config table `con.configs` (total, as `setupConfigs` populates it ahead of
use). -/
def findSafeRound (cfg : Nat → TOCfg) : Nat → Option Nat
  | 0 => if !isConfigChanged (cfg 0) (cfg 1) then some 0 else none
  | r + 1 =>
    if !isConfigChanged (cfg r) (cfg (r + 1)) &&
        !isConfigChanged (cfg (r + 1)) (cfg (r + 2)) then some (r + 1)
    else findSafeRound cfg r

/-- `Consensus.findLatticeSyncBlock` (src/README.md lines 405-499), split
at the end of the round-walk: when no config-stable round exists the Go
code hits `round == 0` inside the inner loop and returns `nil, nil`
("Unable to find a safe round, wait for new rounds"); otherwise control
continues with the found round — `rest` stands for the remainder of the
function (lines 425-498: the walks over finalization parents and the
deliver-set boundary search). -/
def findLatticeSyncBlock (rest : Nat → Except SyncError (Option SBlock))
    (cfg : Nat → TOCfg) (lastRound : Nat) : Except SyncError (Option SBlock) :=
  match findSafeRound cfg lastRound with
  | none => Except.ok none
  | some r => rest r

theorem findSafeRound_eq_none (cfg : Nat → TOCfg) (lastRound : Nat)
    (h : ∀ r, r ≤ lastRound →
      isConfigChanged (cfg r) (cfg (r + 1)) = true ∨
        (r ≠ 0 ∧ isConfigChanged (cfg (r - 1)) (cfg r) = true)) :
    findSafeRound cfg lastRound = none := by
  induction lastRound with
  | zero =>
    rcases h 0 (le_refl 0) with h0 | ⟨hne, _⟩
    · simp [findSafeRound, h0]
    · exact absurd rfl hne
  | succ r ih =>
    rcases h (r + 1) (le_refl _) with h1 | ⟨_, h2⟩
    · simp only [findSafeRound, h1]
      simp only [Bool.not_true, Bool.false_and, Bool.and_false, if_false]
      exact ih fun s hs => h s (Nat.le_succ_of_le hs)
    · simp only [Nat.add_sub_cancel] at h2
      simp only [findSafeRound, h2]
      simp only [Bool.not_true, Bool.false_and, if_false]
      exact ih fun s hs => h s (Nat.le_succ_of_le hs)

/-- Claim C6 (amended).  When the round-walk of `findLatticeSyncBlock`
finds no round `r` with configs at `r-1`, `r`, `r+1` agreeing on
`(K, num_chains, phi_ratio)` all the way down to round 0, the call
returns no block and no error (`ok none` — "wait for new rounds"); it
does not fail with `GenesisBlockReached`, whatever the rest of the
function would do. -/
theorem find_lattice_sync_no_stable_round
    (rest : Nat → Except SyncError (Option SBlock)) (cfg : Nat → TOCfg)
    (lastRound : Nat)
    (h : ∀ r, r ≤ lastRound →
      isConfigChanged (cfg r) (cfg (r + 1)) = true ∨
        (r ≠ 0 ∧ isConfigChanged (cfg (r - 1)) (cfg r) = true)) :
    findLatticeSyncBlock rest cfg lastRound = Except.ok none := by
  unfold findLatticeSyncBlock
  rw [findSafeRound_eq_none cfg lastRound h]

/-- A config table in which every adjacent pair of rounds differs in `K`,
so no config-stable triple of rounds exists anywhere. -/
def cfgAllChanging : Nat → TOCfg := fun r => ⟨r, 5, 0⟩

theorem find_lattice_sync_no_stable_round_witness :
    findLatticeSyncBlock (fun _ => Except.error SyncError.genesisBlockReached)
      cfgAllChanging 3 = Except.ok none :=
  find_lattice_sync_no_stable_round _ cfgAllChanging 3 (by decide)

/-- Claim C6, counterexample.  With configs whose `K` changes every round
and the latest compaction block in round 1, the walk reaches round 0
without a config-stable triple, and `findLatticeSyncBlock` returns
`ok none` — not the `GenesisBlockReached` error the claim requires — even
when the rest of the function would only ever produce that error. -/
theorem find_lattice_sync_counterexample :
    findLatticeSyncBlock (fun _ => Except.error SyncError.genesisBlockReached)
        cfgAllChanging 1 = Except.ok none ∧
      (Except.ok none : Except SyncError (Option SBlock)) ≠
        Except.error SyncError.genesisBlockReached := by
  exact ⟨rfl, fun h => nomatch h⟩

/-- The state of the syncer `Consensus` that `SyncBlocks` can read or
write before its early returns, plus the fields the claim requires to be
left unchanged.  `configs` and `queues` (the per-chain `con.blocks`) stand
for the rest of the mutable state. -/
structure SyncerState where
  isSynced : Bool
  configs : List TOCfg
  queues : List (List SBlock)
deriving DecidableEq

/-- The consecutive-finalization-height check of `SyncBlocks`
(src/README.md lines 513-517). -/
def consecutiveHeights : List SBlock → Bool
  | [] => true
  | [_] => true
  | a :: b :: rest => (b.finHeight == a.finHeight + 1) && consecutiveHeights (b :: rest)

/-- `Consensus.SyncBlocks` (src/README.md lines 505-607), with the guard
cascade at its head embedded exactly and `restOfSync` standing for the
remainder of the function (lines 518-606: config setup, block storage,
lattice replay and the synced check), which only runs when no guard
fires. -/
def syncBlocks
    (restOfSync : SyncerState → List SBlock → Bool →
      Except SyncError (Option Unit) × SyncerState)
    (s : SyncerState) (blocks : List SBlock) (latest : Bool) :
    Except SyncError (Option Unit) × SyncerState :=
  if s.isSynced then (Except.error SyncError.alreadySynced, s)
  else if blocks.isEmpty then (Except.ok none, s)
  else if !consecutiveHeights blocks then (Except.error SyncError.invalidBlockOrder, s)
  else restOfSync s blocks latest

/-- Claim C10.  `SyncBlocks` with an empty slice on an unsynced syncer
returns no consensus object and no error and leaves the state unchanged;
the `ErrAlreadySynced` short-circuit precedes the empty-input check, so a
synced syncer gets `ErrAlreadySynced` even on an empty slice.  Both parts
hold for every remainder `restOfSync` of the function. -/
theorem sync_blocks_early_paths
    (restOfSync : SyncerState → List SBlock → Bool →
      Except SyncError (Option Unit) × SyncerState)
    (s : SyncerState) (blocks : List SBlock) (latest : Bool)
    (hempty : blocks = []) :
    (s.isSynced = false →
      syncBlocks restOfSync s blocks latest = (Except.ok none, s)) ∧
    (s.isSynced = true →
      syncBlocks restOfSync s blocks latest =
        (Except.error SyncError.alreadySynced, s)) := by
  subst hempty
  constructor
  · intro hs
    simp [syncBlocks, hs]
  · intro hs
    simp [syncBlocks, hs]

def syncStateUnsynced : SyncerState := ⟨false, [⟨1, 4, 0⟩], [[]]⟩

def syncStateSynced : SyncerState := ⟨true, [⟨1, 4, 0⟩], [[]]⟩

theorem sync_blocks_early_paths_witness :
    syncBlocks (fun s _ _ => (Except.ok none, s)) syncStateUnsynced [] true =
        (Except.ok none, syncStateUnsynced) ∧
      syncBlocks (fun s _ _ => (Except.ok none, s)) syncStateSynced [] true =
        (Except.error SyncError.alreadySynced, syncStateSynced) :=
  ⟨(sync_blocks_early_paths _ syncStateUnsynced [] true rfl).1 rfl,
    (sync_blocks_early_paths _ syncStateSynced [] true rfl).2 rfl⟩

/-! ### VerifyTotalOrder (simulation application, src/simulation bundle) -/

/-- `math.MaxInt32`, the initial value of `length` in `VerifyTotalOrder`. -/
def maxInt32 : Nat := 2 ^ 31 - 1

/-- `PeerTotalOrder`, restricted to the field `VerifyTotalOrder` reads:
each peer's `hashList`.  Keys are validator ids, hashes are `Nat`. -/
abbrev PeerTO := List (Nat × List Nat)

/-- The first loop of `VerifyTotalOrder`: the common length, starting from
`math.MaxInt32` and taking the minimum over every peer's `hashList`
length. -/
def minHashListLength (peers : PeerTO) : Nat :=
  peers.foldl (fun m p => min m p.2.length) maxInt32

/-- `totalOrder[id].hashList` — the calling peer's hash list. -/
def peerHashList (peers : PeerTO) (id : Nat) : List Nat :=
  ((peers.find? fun p => p.1 == id).map (fun p => p.2)).getD []

/-- `VerifyTotalOrder` (simulation application source bundled with
src/simulation/app_test.go): computes the common length, compares every
peer's entries against the calling peer's on that common prefix
(`correct` stays true only when no mismatch is seen), and removes the
verified prefix from every peer's `hashList` when the common length is
positive.  Returns `(unverifiedMap, correct, length)`. -/
def verifyTotalOrder (id : Nat) (peers : PeerTO) : PeerTO × Bool × Nat :=
  let length := minHashListLength peers
  let me := peerHashList peers id
  let correct := (List.range length).all fun i =>
    peers.all fun p => p.2.getD i 0 == me.getD i 0
  let peers2 :=
    if 0 < length then peers.map (fun p => (p.1, p.2.drop length)) else peers
  (peers2, correct, length)

theorem minHashListLength_le_init (f : Nat × List Nat → Nat) (peers : PeerTO)
    (a : Nat) : peers.foldl (fun m p => min m (f p)) a ≤ a := by
  induction peers generalizing a with
  | nil => simp
  | cons p rest ih =>
    calc rest.foldl (fun m q => min m (f q)) (min a (f p)) ≤ min a (f p) := ih _
      _ ≤ a := min_le_left _ _

theorem minHashListLength_le_mem (f : Nat × List Nat → Nat) (peers : PeerTO)
    (a : Nat) (p : Nat × List Nat) (hp : p ∈ peers) :
    peers.foldl (fun m q => min m (f q)) a ≤ f p := by
  induction peers generalizing a with
  | nil => cases hp
  | cons q rest ih =>
    rcases List.mem_cons.mp hp with h | h
    · subst h
      calc rest.foldl (fun m r => min m (f r)) (min a (f p)) ≤ min a (f p) :=
            minHashListLength_le_init f rest _
        _ ≤ f p := min_le_right _ _
    · exact ih _ h

theorem minHashListLength_attained (f : Nat × List Nat → Nat) (peers : PeerTO)
    (a : Nat) :
    peers.foldl (fun m q => min m (f q)) a = a ∨
      ∃ p ∈ peers, peers.foldl (fun m q => min m (f q)) a = f p := by
  induction peers generalizing a with
  | nil => exact Or.inl rfl
  | cons q rest ih =>
    rcases ih (min a (f q)) with h | ⟨p, hp, h⟩
    · rcases Nat.le_total a (f q) with hle | hle
      · exact Or.inl (by simpa [Nat.min_eq_left hle] using h)
      · exact Or.inr ⟨q, List.mem_cons_self q rest,
          by simpa [Nat.min_eq_right hle] using h⟩
    · exact Or.inr ⟨p, List.mem_cons_of_mem _ hp, h⟩

/-- Claim C9 (amended).  For a non-empty peer map, `VerifyTotalOrder`
returns as `length` the minimum of `math.MaxInt32` and every peer's
`hashList` length (so the minimum hash-list length only when that does
not exceed `MaxInt32`); `correct` is true iff every peer agrees with the
calling peer on the first `length` entries; and the returned map carries
every peer's `hashList` with exactly the first `length` entries
removed. -/
theorem verify_total_order_characterisation (id : Nat) (peers : PeerTO)
    (hne : peers ≠ []) :
    (∀ p ∈ peers, (verifyTotalOrder id peers).2.2 ≤ p.2.length) ∧
    (verifyTotalOrder id peers).2.2 ≤ maxInt32 ∧
    ((verifyTotalOrder id peers).2.2 = maxInt32 ∨
      ∃ p ∈ peers, p.2.length = (verifyTotalOrder id peers).2.2) ∧
    ((verifyTotalOrder id peers).2.1 = true ↔
      ∀ i < (verifyTotalOrder id peers).2.2, ∀ p ∈ peers,
        p.2.getD i 0 = (peerHashList peers id).getD i 0) ∧
    (verifyTotalOrder id peers).1 =
      peers.map fun p => (p.1, p.2.drop (verifyTotalOrder id peers).2.2) := by
  have hl : (verifyTotalOrder id peers).2.2 = minHashListLength peers := rfl
  have hc : (verifyTotalOrder id peers).2.1 =
      ((List.range (minHashListLength peers)).all fun i =>
        peers.all fun p => p.2.getD i 0 == (peerHashList peers id).getD i 0) := rfl
  refine ⟨?_, ?_, ?_, ?_, ?_⟩
  · intro p hp
    rw [hl]
    exact minHashListLength_le_mem _ peers maxInt32 p hp
  · rw [hl]
    exact minHashListLength_le_init _ peers maxInt32
  · rw [hl]
    rcases minHashListLength_attained (fun p => p.2.length) peers maxInt32 with h | ⟨p, hp, h⟩
    · exact Or.inl h
    · exact Or.inr ⟨p, hp, h.symm⟩
  · rw [hc, hl]
    simp only [List.all_eq_true, List.mem_range, beq_iff_eq]
  · rw [hl]
    show (if 0 < minHashListLength peers then
        peers.map (fun p => (p.1, p.2.drop (minHashListLength peers))) else peers) =
      peers.map fun p => (p.1, p.2.drop (minHashListLength peers))
    rcases Nat.eq_zero_or_pos (minHashListLength peers) with h0 | h0
    · rw [h0]
      simp
    · rw [if_pos h0]

def peersSample : PeerTO := [(0, [5, 6]), (1, [5])]

theorem verify_total_order_characterisation_witness :
    (verifyTotalOrder 0 peersSample).1 =
      peersSample.map fun p => (p.1, p.2.drop (verifyTotalOrder 0 peersSample).2.2) :=
  (verify_total_order_characterisation 0 peersSample (by decide)).2.2.2.2

/-- Claim C9, counterexample.  A single peer holding a `hashList` of
length 2^31 (one more than `math.MaxInt32`): the returned length is
`math.MaxInt32 = 2^31 - 1`, not the minimum hash-list length 2^31, so the
claimed equality with the minimum fails. -/
theorem verifyTotalOrder_single_length (l : List Nat) :
    (verifyTotalOrder 0 [(0, l)]).2.2 = min maxInt32 l.length := by
  have h : (verifyTotalOrder 0 [(0, l)]).2.2 = minHashListLength [(0, l)] := rfl
  rw [h]
  simp [minHashListLength]

theorem verify_total_order_counterexample :
    (verifyTotalOrder 0 [(0, List.replicate (2 ^ 31) 7)]).2.2 = 2 ^ 31 - 1 ∧
      (List.replicate (2 ^ 31) (7 : Nat)).length = 2 ^ 31 ∧
      (2 ^ 31 - 1 : Nat) ≠ 2 ^ 31 := by
  refine ⟨?_, List.length_replicate .., by norm_num⟩
  rw [verifyTotalOrder_single_length, List.length_replicate,
    Nat.min_eq_left (by norm_num [maxInt32])]
  norm_num [maxInt32]

/-! ### checkIfSynced (src/README.md lines 293-338) -/

/-- The tip-finding walk of `checkIfSynced` (src/README.md lines
299-317): walk the compaction chain backward from `b` through
`Finalization.ParentHash`, recording the newest block of each chain with
id below `numChains`, until every chain has a tip.  Returns `none` when
the walk ends early — a zero parent hash is the Go `return` that leaves
the syncer unsynced, a missing database entry is the Go `panic`; `fuel`
bounds the walk (the Go loop is bounded by the finite chain). -/
def findTips (db : Nat → Option SBlock) (numChains : Nat) :
    Nat → SBlock → List (Option SBlock) → Nat → Option (List (Option SBlock))
  | 0, _, _, _ => none
  | fuel + 1, b, tips, tipCount =>
    if tipCount == numChains then some tips
    else
      let hit := (tips.getD b.pos.chainID none).isNone && b.pos.chainID < numChains
      let tips2 := if hit then tips.set b.pos.chainID (some b) else tips
      let tipCount2 := if hit then tipCount + 1 else tipCount
      if b.finParentHash == 0 then none
      else
        match db b.finParentHash with
        | none => none
        | some b2 => findTips db numChains fuel b2 tips2 tipCount2

/-- The per-chain overlap test of `checkIfSynced` (src/README.md lines
323-329): chain `c` counts as overlapped when its queue of cached
confirmed blocks is non-empty and the compaction tip of chain `c` is not
older than the queue's oldest block. -/
def overlapB (tips : List (Option SBlock)) (queues : List (List SBlock))
    (c : Nat) : Bool :=
  match tips.getD c none, (queues.getD c []).head? with
  | some t, some q => !(t.pos.older q.pos)
  | _, _ => false

/-- `Consensus.checkIfSynced` (src/README.md lines 293-338), returning
the new value of `isSynced` (the function is only called while unsynced).
`numChains` comes from the config at the round of the first cached block
of chain 0, as in the source; an empty queue structure is inert (the Go
code would panic). -/
def checkIfSynced (db : Nat → Option SBlock) (cfg : Nat → TOCfg)
    (queues : List (List SBlock)) (lastBlocks : List SBlock) (fuel : Nat) :
    Bool :=
  match queues with
  | (q00 :: _) :: _ =>
    let n := (cfg q00.pos.round).numChains
    (lastBlocks.getLast?).elim false fun last =>
      (findTips db n fuel last (List.replicate n none) 0).elim false fun tips =>
        ((List.range n).countP fun c => overlapB tips queues c) == n
  | _ => false

theorem overlapB_eq_true_iff (tips : List (Option SBlock))
    (queues : List (List SBlock)) (c : Nat) :
    overlapB tips queues c = true ↔
      ∃ t q, tips.getD c none = some t ∧ (queues.getD c []).head? = some q ∧
        t.pos.older q.pos = false := by
  unfold overlapB
  rcases h1 : tips.getD c none with _ | t
  · simp
  · rcases h2 : (queues.getD c []).head? with _ | q
    · simp
    · simp

/-- Claim C7 (amended).  When the tip-walk completes, `checkIfSynced`
reports synced exactly when every chain below `num_chains` has a
non-empty queue of cached confirmed blocks and the chain's compaction tip
is **not older** than the oldest queued block — i.e. the compaction
prefix reaches at least as far as the queue's start (the converse of the
claim's comparison). -/
theorem check_if_synced_overlap_iff (db : Nat → Option SBlock)
    (cfg : Nat → TOCfg) (queues : List (List SBlock))
    (lastBlocks : List SBlock) (fuel : Nat) (q00 : SBlock)
    (qrest0 : List SBlock) (qrest : List (List SBlock)) (last : SBlock)
    (tips : List (Option SBlock))
    (hq : queues = (q00 :: qrest0) :: qrest)
    (hlast : lastBlocks.getLast? = some last)
    (htips : findTips db (cfg q00.pos.round).numChains fuel last
        (List.replicate (cfg q00.pos.round).numChains none) 0 = some tips) :
    (checkIfSynced db cfg queues lastBlocks fuel = true ↔
      ∀ c < (cfg q00.pos.round).numChains, ∃ t q,
        tips.getD c none = some t ∧ (queues.getD c []).head? = some q ∧
          t.pos.older q.pos = false) := by
  subst hq
  unfold checkIfSynced
  rw [hlast]
  simp only [Option.elim]
  rw [htips]
  simp only [Option.elim, beq_iff_eq]
  constructor
  · intro h c hc
    have hall := List.countP_eq_length.mp (by rw [h, List.length_range])
    exact (overlapB_eq_true_iff _ _ c).mp (hall c (List.mem_range.mpr hc))
  · intro h
    have hall : ∀ c ∈ List.range ((cfg q00.pos.round).numChains),
        (fun c => overlapB tips ((q00 :: qrest0) :: qrest) c) c = true :=
      fun c hc => (overlapB_eq_true_iff _ _ c).mpr (h c (List.mem_range.mp hc))
    rw [List.countP_eq_length.mpr hall, List.length_range]

/-- Concrete data for `checkIfSynced`: a single chain whose compaction
tip sits at height 5 while the oldest cached confirmed block sits at
height 3 on the same round — the cached queue starts strictly below the
compaction tip. -/
def tipBlock : SBlock := ⟨100, ⟨0, 0, 5⟩, 9, 10⟩

def tipParent : SBlock := ⟨99, ⟨0, 0, 4⟩, 0, 9⟩

def queueOldest : SBlock := ⟨50, ⟨0, 0, 3⟩, 0, 3⟩

def dbOne : Nat → Option SBlock := fun h => if h == 9 then some tipParent else none

def cfgOne : Nat → TOCfg := fun _ => ⟨2, 1, 0⟩

theorem check_if_synced_overlap_iff_witness :
    checkIfSynced dbOne cfgOne [[queueOldest]] [tipBlock] 3 = true :=
  (check_if_synced_overlap_iff dbOne cfgOne [[queueOldest]] [tipBlock] 3
    queueOldest [] [] tipBlock [some tipBlock] rfl rfl (by decide)).mpr
    (by
      intro c hc
      have hc1 : c < 1 := hc
      interval_cases c
      exact ⟨tipBlock, queueOldest, rfl, rfl, by decide⟩)

/-- Claim C7, counterexample.  The syncer marks itself synced in a state
where the oldest block of the only per-chain queue (height 3) **is**
older than the compaction tip of that chain (height 5): the claimed
overlap condition (queue's oldest not older than the tip) is false, yet
`isSynced` becomes true, because the source compares in the opposite
direction (`!b.Position.Older(queueOldest)` with `b` the compaction
tip). -/
theorem check_if_synced_counterexample :
    checkIfSynced dbOne cfgOne [[queueOldest]] [tipBlock] 3 = true ∧
      queueOldest.pos.older tipBlock.pos = true := by
  exact ⟨by decide, by decide⟩

/-! ### Total-ordering vector operations

The total-ordering implementation file is not among the staged sources;
only its unit-test suite is (src/README.md lines 817-1781).  The
definitions below are therefore modelled from the spec (sections 4.2 and
4.3), except that wherever the spec's pseudo-code contradicts the
repository's own unit tests, the tests win; each such point is noted. -/

/-- A per-chain acking record `{minHeight, count}` of an acking-status
vector (spec section 4.2; `ackingStatusVector` in the test suite). -/
structure AsvRec where
  minHeight : Nat
  count : Nat
deriving DecidableEq

/-- An acking-status vector: a finite map from chain (validator) id to
its acking record, embedded as an association list with distinct keys. -/
abbrev ASV := List (Nat × AsvRec)

def asvLookup (v : ASV) (c : Nat) : Option AsvRec :=
  (v.find? fun p => p.1 == c).map fun p => p.2

/-- An acking-height value: a finite height or infinity (the source uses
`uint64` with `infinity = math.MaxUint64`; heights never reach it, so the
two-case type is the faithful reading). -/
inductive HV where
  | infinity
  | fin (h : Nat)
deriving DecidableEq

/-- Modelled from the spec: entry `c` of the acking-height vector of a
candidate with local status vector `v`, global vector `global` and
parameter `k` (`getAckingHeightVector` is absent from the staged
sources).  The spec's branch values (section 4.3) are corrected where the
unit test `TestCreateAckingHeightVectorFromHeightVector` (src/README.md
lines 946-988) pins different behaviour:

* a chain absent from `v` but in `global` maps to infinity only when
  `global`'s count exceeds `k` (spec agrees);
* a chain of `v` whose local minimum exceeds `global`'s minimum plus `k`
  maps to infinity (spec agrees);
* otherwise the entry is the **local minimum height** (not minimum plus
  `k` as the spec writes) and it is defined exactly when the local run of
  acking heights reaches `global`'s minimum plus `k` (rather than the
  spec's `count >= k+1` test): the test asserts value 3 at `k = 3` for a
  local record `{minHeight 3, count 1}` under a global `{0, 5}`, and an
  empty result at `k = 5` for local `{0, 3}` records. -/
def ahvEntry (v global : ASV) (k : Nat) (c : Nat) : Option HV :=
  match asvLookup global c with
  | none => none
  | some gs =>
    match asvLookup v c with
    | none => if k < gs.count then some HV.infinity else none
    | some ls =>
      if gs.minHeight + k < ls.minHeight then some HV.infinity
      else if gs.minHeight + k < ls.minHeight + ls.count then
        some (HV.fin ls.minHeight)
      else none

/-- The acking-height vector as a map: the defined entries over the
chains of the global vector. -/
def getAckingHeightVector (v g : ASV) (k : Nat) : List (Nat × HV) :=
  g.foldr
    (fun p acc =>
      match ahvEntry v g k p.1 with
      | some hv => (p.1, hv) :: acc
      | none => acc)
    []

/-- Modelled from the spec: membership of chain `c` in a candidate's
acking node set (`getAckingNodeSet` is absent from the staged sources).
Following the spec's definition — "the set of chains whose entry in
`C`'s `ahv` is a finite value (`≠ ∞` and defined)" — a chain qualifies
when it has records in both vectors, its local minimum lies within `k`
of the global minimum, and its local consecutive acking run reaches past
the global minimum plus `k` (the conditions under which `ahvEntry` is a
defined finite value; `acking_node_set_eq_finite_ahv` proves the
equality).  The rule reproduces
`TestCreateAckingNodeSetFromHeightVector` (src/README.md lines 990-1010)
and every engine unit test. -/
def ansMem (v g : ASV) (k c : Nat) : Bool :=
  match asvLookup g c, asvLookup v c with
  | some gs, some ls =>
    decide (ls.minHeight ≤ gs.minHeight + k) &&
      decide (gs.minHeight + k < ls.minHeight + ls.count)
  | _, _ => false

/-- The acking node set over the chains of the global vector. -/
def getAckingNodeSet (v g : ASV) (k : Nat) : List Nat :=
  (g.map fun p => p.1).filter fun c => ansMem v g k c

/-- The strict order on acking-height values used by `grade`: a finite
value is below a strictly larger finite value or infinity; infinity is
below nothing (the source's `hv != infinity && hv < other` on
`uint64`). -/
def hvLT : HV → HV → Bool
  | HV.fin a, HV.fin b => decide (a < b)
  | HV.fin _, HV.infinity => true
  | HV.infinity, _ => false

/-- Reading an acking-height map at a chain: Go map indexing yields the
zero value (height 0) for an absent key. -/
def hvRead (hv : List (Nat × HV)) (c : Nat) : HV :=
  ((hv.find? fun p => p.1 == c).map fun p => p.2).getD (HV.fin 0)

/-- The count `|S|` of `grade`: chains of `ans` where the first vector is
finite and strictly below the second. -/
def gradeCount (hv1 hv2 : List (Nat × HV)) (ans : List Nat) : Nat :=
  (ans.filter fun c => hvLT (hvRead hv1 c) (hvRead hv2 c)).length

/-- Modelled from the spec: the precedence grade of two candidates over
the acking node set `ans` (`totalOrdering.grade` is absent from the
staged sources).  Returns 1 when `|S| >= phi`; otherwise 0 when
`|S| < phi - (n - |ans|)` in the source's wrap-around `uint64`
arithmetic (so always 0 when `phi + |ans| < n`), else -1.  The spec's
undecided test (`fewer than phi chains finite`) contradicts `TestGrade`
(src/README.md lines 1012-1045), which fixes -1 for `|S| = 2` with
`phi = 3`, `n = 5`, `|ans| = 4` although every chain is finite in one of
the two vectors; the comment there ("K doesn't matter when calculating
preceding") pins the `n`-based threshold. -/
def grade (hv1 hv2 : List (Nat × HV)) (ans : List Nat) (phi n : Nat) : Int :=
  if phi ≤ gradeCount hv1 hv2 ans then 1
  else if phi + ans.length < n ∨ gradeCount hv1 hv2 ans + n < phi + ans.length
    then 0
  else -1

/-- The global vector of `TestCreateAckingHeightVectorFromHeightVector`
and `TestCreateAckingNodeSetFromHeightVector`: chains 0-3 each with
`{minHeight 0, count 5}`. -/
def testGlobal : ASV := [(0, ⟨0, 5⟩), (1, ⟨0, 5⟩), (2, ⟨0, 5⟩), (3, ⟨0, 5⟩)]

/-- The assertions of `TestCreateAckingHeightVectorFromHeightVector`
(src/README.md lines 946-988) hold of the model. -/
theorem ahv_matches_unit_test :
    getAckingHeightVector [(0, ⟨0, 2⟩)] testGlobal 0 =
        [(0, HV.fin 0), (1, HV.infinity), (2, HV.infinity), (3, HV.infinity)] ∧
      ahvEntry [(0, ⟨3, 1⟩)] testGlobal 2 0 = some HV.infinity ∧
      ahvEntry [(0, ⟨3, 1⟩)] testGlobal 3 0 = some (HV.fin 3) ∧
      getAckingHeightVector [(0, ⟨0, 3⟩), (1, ⟨0, 3⟩)] testGlobal 5 = [] := by
  decide

/-- The assertions of `TestCreateAckingNodeSetFromHeightVector`
(src/README.md lines 990-1010) hold of the model. -/
theorem ans_matches_unit_test :
    (getAckingNodeSet [(0, ⟨1, 2⟩)] testGlobal 1).length = 1 ∧
      (getAckingNodeSet [(0, ⟨1, 2⟩)] testGlobal 2).length = 1 ∧
      (getAckingNodeSet [(0, ⟨1, 2⟩)] testGlobal 3).length = 0 := by
  decide

def ansGrade : List Nat := [0, 1, 2, 3]

def ahvOne : List (Nat × HV) :=
  [(0, HV.fin 1), (1, HV.infinity), (2, HV.infinity), (3, HV.infinity)]

def ahvTwo : List (Nat × HV) :=
  [(0, HV.fin 1), (1, HV.fin 1), (2, HV.fin 1), (3, HV.fin 1)]

def ahvThree : List (Nat × HV) :=
  [(0, HV.fin 1), (1, HV.fin 1), (2, HV.infinity), (3, HV.infinity)]

/-- The assertions of `TestGrade` (src/README.md lines 1012-1045) hold of
the model: `phi = 3`, five chains, `ans` of size 4. -/
theorem grade_matches_unit_test :
    grade ahvTwo ahvOne ansGrade 3 5 = 1 ∧
      grade ahvOne ahvTwo ansGrade 3 5 = 0 ∧
      grade ahvTwo ahvThree ansGrade 3 5 = -1 ∧
      grade ahvThree ahvTwo ansGrade 3 5 = 0 := by
  decide

/-- Claim C2, counterexample.  At the unit test's own input — local
record `{minHeight 3, count 1}` for chain 0, global `{0, 5}`, `K = 3`,
so the chain is in `L` with `L.min_height <= G.min_height + K` — the
entry is **defined** with value 3 (the local minimum height) although
`L.count = 1 < K + 1 = 4`, where the claim requires the entry to be
absent; and 3 differs from the claimed finite value
`L.min_height + K = 6`. -/
theorem ahv_entry_counterexample :
    ahvEntry [(0, ⟨3, 1⟩)] testGlobal 3 0 = some (HV.fin 3) ∧
      asvLookup [(0, (⟨3, 1⟩ : AsvRec))] 0 = some ⟨3, 1⟩ ∧
      asvLookup testGlobal 0 = some ⟨0, 5⟩ ∧
      (3 : Nat) ≤ 0 + 3 ∧ (1 : Nat) < 3 + 1 ∧
      some (HV.fin 3) ≠ (none : Option HV) ∧ HV.fin 3 ≠ HV.fin (3 + 3) := by
  decide

/-- Claim C2 (amended).  For a chain `c` of `L` (global record `gs`,
local record `ls`) with `ls.minHeight <= gs.minHeight + K`, the
acking-height entry is the finite value `ls.minHeight` exactly when the
local consecutive run reaches past `gs.minHeight + K` (that is,
`ls.minHeight + ls.count > gs.minHeight + K`), and is undefined (absent)
exactly otherwise; `L.count >= K + 1` plays no role and the finite value
is the local minimum, not the minimum plus `K`. -/
theorem ahvEntry_eq_noglobal (v g : ASV) (k c : Nat)
    (hG : asvLookup g c = none) : ahvEntry v g k c = none := by
  unfold ahvEntry
  rw [hG]

theorem ahvEntry_eq_absent (v g : ASV) (k c : Nat) (gs : AsvRec)
    (hG : asvLookup g c = some gs) (hL : asvLookup v c = none) :
    ahvEntry v g k c = if k < gs.count then some HV.infinity else none := by
  unfold ahvEntry
  rw [hG, hL]

theorem ahvEntry_eq_of_lookups (v g : ASV) (k c : Nat) (gs ls : AsvRec)
    (hG : asvLookup g c = some gs) (hL : asvLookup v c = some ls) :
    ahvEntry v g k c =
      (if gs.minHeight + k < ls.minHeight then some HV.infinity
       else if gs.minHeight + k < ls.minHeight + ls.count then
         some (HV.fin ls.minHeight)
       else none) := by
  unfold ahvEntry
  rw [hG, hL]

theorem asvLookup_mem (v : ASV) (c : Nat) (r : AsvRec)
    (h : asvLookup v c = some r) : ∃ p ∈ v, p.1 = c ∧ p.2 = r := by
  unfold asvLookup at h
  rcases hf : v.find? (fun p => p.1 == c) with _ | p
  · rw [hf] at h
    exact absurd h (by simp)
  · rw [hf] at h
    have hm := List.mem_of_find?_eq_some hf
    have hp := List.find?_some hf
    have h2 : p.2 = r := Option.some.inj (by simpa using h)
    exact ⟨p, hm, by simpa using hp, h2⟩

theorem ansMem_eq_true_iff (L G : ASV) (k c : Nat) :
    ansMem L G k c = true ↔ ∃ gs ls,
      asvLookup G c = some gs ∧ asvLookup L c = some ls ∧
        ls.minHeight ≤ gs.minHeight + k ∧
        gs.minHeight + k < ls.minHeight + ls.count := by
  unfold ansMem
  rcases hG : asvLookup G c with _ | gs
  · simp [hG]
  · rcases hL : asvLookup L c with _ | ls
    · simp [hG, hL]
    · simp [hG, hL]

theorem acking_node_set_mem_iff (L G : ASV) (k c : Nat) :
    c ∈ getAckingNodeSet L G k ↔ ∃ gs ls,
      asvLookup G c = some gs ∧ asvLookup L c = some ls ∧
        ls.minHeight ≤ gs.minHeight + k ∧
        gs.minHeight + k < ls.minHeight + ls.count := by
  unfold getAckingNodeSet
  rw [List.mem_filter]
  constructor
  · rintro ⟨-, hb⟩
    exact (ansMem_eq_true_iff L G k c).mp hb
  · intro hex
    refine ⟨?_, (ansMem_eq_true_iff L G k c).mpr hex⟩
    rcases hex with ⟨gs, ls, hG, hL, -⟩
    rcases asvLookup_mem G c gs hG with ⟨p, hp, hpc, -⟩
    exact List.mem_map.mpr ⟨p, hp, hpc⟩

/-- Claim C2 (amended).  For a chain `c` of `L` (global record `gs`,
local record `ls`) with `ls.minHeight <= gs.minHeight + K`, the
acking-height entry is the finite value `ls.minHeight` exactly when the
local consecutive run reaches past `gs.minHeight + K` (that is,
`ls.minHeight + ls.count > gs.minHeight + K`), and is undefined (absent)
exactly otherwise; `L.count >= K + 1` plays no role and the finite value
is the local minimum, not the minimum plus `K`. -/
theorem ahv_entry_defined_iff (L G : ASV) (k c : Nat) (ls gs : AsvRec)
    (hL : asvLookup L c = some ls) (hG : asvLookup G c = some gs)
    (hmin : ls.minHeight ≤ gs.minHeight + k) :
    (ahvEntry L G k c = some (HV.fin ls.minHeight) ↔
      gs.minHeight + k < ls.minHeight + ls.count) ∧
    (ahvEntry L G k c = none ↔ ls.minHeight + ls.count ≤ gs.minHeight + k) := by
  rw [ahvEntry_eq_of_lookups L G k c gs ls hG hL]
  rw [if_neg (by omega : ¬gs.minHeight + k < ls.minHeight)]
  by_cases h : gs.minHeight + k < ls.minHeight + ls.count
  · rw [if_pos h]
    constructor
    · constructor
      · intro _
        exact h
      · intro _
        rfl
    · constructor
      · intro he
        exact absurd he (by simp)
      · intro hle
        omega
  · rw [if_neg h]
    constructor
    · constructor
      · intro he
        exact absurd he (by simp)
      · intro hlt
        exact absurd hlt h
    · constructor
      · intro _
        omega
      · intro _
        rfl

theorem ahv_entry_defined_iff_witness :
    ahvEntry [(0, ⟨3, 1⟩)] testGlobal 3 0 = some (HV.fin 3) :=
  (ahv_entry_defined_iff [(0, ⟨3, 1⟩)] testGlobal 3 0 ⟨3, 1⟩ ⟨0, 5⟩ rfl rfl
    (by decide)).1.mpr (by decide)

/-- Claim C3, counterexample.  At `TestGrade`'s own input
(`phi = 3`, `num_chains = 5`, `ans` of size 4): the grade of the
all-finite vector against the half-finite one is -1, although every one
of the four chains of `ans` carries a finite entry in one of the two
vectors — at least `phi` of them — so the claim requires 0 there. -/
theorem grade_counterexample :
    grade ahvTwo ahvThree ansGrade 3 5 = -1 ∧
      3 ≤ (ansGrade.filter fun c =>
        !(hvRead ahvTwo c == HV.infinity) ||
          !(hvRead ahvThree c == HV.infinity)).length ∧
      grade ahvTwo ahvThree ansGrade 3 5 ≠ 0 := by
  decide

/-- Claim C3 (amended).  With `S` the chains of `ans` where the first
vector is finite and strictly below the second: `grade` returns 1 iff
`|S| >= phi`; when `|S| < phi` it returns 0 iff
`|S| < phi - (num_chains - |ans|)` in wrap-around unsigned arithmetic
(equivalently: `phi + |ans| < num_chains`, or
`|S| + num_chains < phi + |ans|`), and -1 otherwise — the undecided case
is **not** governed by how many chains carry a finite entry. -/
theorem grade_characterisation (hv1 hv2 : List (Nat × HV)) (ans : List Nat)
    (phi n : Nat) :
    gradeCount hv1 hv2 ans =
        (ans.filter fun c =>
          !(hvRead hv1 c == HV.infinity) &&
            hvLT (hvRead hv1 c) (hvRead hv2 c)).length ∧
    (grade hv1 hv2 ans phi n = 1 ↔ phi ≤ gradeCount hv1 hv2 ans) ∧
    (grade hv1 hv2 ans phi n = 0 ↔ gradeCount hv1 hv2 ans < phi ∧
      (phi + ans.length < n ∨ gradeCount hv1 hv2 ans + n < phi + ans.length)) ∧
    (grade hv1 hv2 ans phi n = -1 ↔ gradeCount hv1 hv2 ans < phi ∧
      n ≤ phi + ans.length ∧ phi + ans.length ≤ gradeCount hv1 hv2 ans + n) := by
  refine ⟨?_, ?_⟩
  · unfold gradeCount
    congr 1
    apply List.filter_congr
    intro c _
    cases hvRead hv1 c with
    | infinity => simp [hvLT]
    | fin a => simp [hvLT]
  · unfold grade
    by_cases h1 : phi ≤ gradeCount hv1 hv2 ans
    · rw [if_pos h1]
      refine ⟨⟨fun _ => h1, fun _ => rfl⟩, ?_, ?_⟩
      · constructor
        · intro he
          exact absurd he (by decide)
        · rintro ⟨hlt, -⟩
          omega
      · constructor
        · intro he
          exact absurd he (by decide)
        · rintro ⟨hlt, -, -⟩
          omega
    · rw [if_neg h1]
      by_cases h2 : phi + ans.length < n ∨
          gradeCount hv1 hv2 ans + n < phi + ans.length
      · rw [if_pos h2]
        refine ⟨?_, ⟨fun _ => ⟨by omega, h2⟩, fun _ => rfl⟩, ?_⟩
        · constructor
          · intro he
            exact absurd he (by decide)
          · intro hge
            exact absurd hge h1
        · constructor
          · intro he
            exact absurd he (by decide)
          · rintro ⟨-, hc1, hc2⟩
            omega
      · rw [if_neg h2]
        refine ⟨?_, ?_, ⟨fun _ => ⟨by omega, by omega, by omega⟩, fun _ => rfl⟩⟩
        · constructor
          · intro he
            exact absurd he (by decide)
          · intro hge
            exact absurd hge h1
        · constructor
          · intro he
            exact absurd he (by decide)
          · rintro ⟨-, hor⟩
            exact absurd hor h2

theorem grade_characterisation_witness :
    grade ahvTwo ahvThree ansGrade 3 5 = -1 :=
  (grade_characterisation ahvTwo ahvThree ansGrade 3 5).2.2.2.mpr (by decide)

/-- Claim C4.  For every candidate at parameter `K`, the acking node set
equals exactly the set of chains whose entry in the candidate's
acking-height vector is defined and finite: a chain is in
`ackingNodeSet(C)` if and only if `ahv[c]` is defined and not
infinity. -/
theorem acking_node_set_eq_finite_ahv (L G : ASV) (k c : Nat) :
    c ∈ getAckingNodeSet L G k ↔ ∃ h, ahvEntry L G k c = some (HV.fin h) := by
  rw [acking_node_set_mem_iff]
  constructor
  · rintro ⟨gs, ls, hG, hL, hmin, hover⟩
    refine ⟨ls.minHeight, ?_⟩
    rw [ahvEntry_eq_of_lookups L G k c gs ls hG hL]
    rw [if_neg (by omega : ¬gs.minHeight + k < ls.minHeight), if_pos hover]
  · rintro ⟨h, he⟩
    rcases hG : asvLookup G c with _ | gs
    · rw [ahvEntry_eq_noglobal L G k c hG] at he
      exact absurd he (by simp)
    · rcases hL : asvLookup L c with _ | ls
      · rw [ahvEntry_eq_absent L G k c gs hG hL] at he
        by_cases hk : k < gs.count
        · rw [if_pos hk] at he
          exact absurd he (by simp)
        · rw [if_neg hk] at he
          exact absurd he (by simp)
      · rw [ahvEntry_eq_of_lookups L G k c gs ls hG hL] at he
        by_cases h1 : gs.minHeight + k < ls.minHeight
        · rw [if_pos h1] at he
          exact absurd he (by simp)
        · rw [if_neg h1] at he
          by_cases h2 : gs.minHeight + k < ls.minHeight + ls.count
          · exact ⟨gs, ls, rfl, rfl, by omega, h2⟩
          · rw [if_neg h2] at he
            exact absurd he (by simp)

theorem acking_node_set_eq_finite_ahv_witness :
    0 ∈ getAckingNodeSet [(0, ⟨1, 2⟩)] testGlobal 1 :=
  (acking_node_set_eq_finite_ahv [(0, ⟨1, 2⟩)] testGlobal 1 0).mpr
    ⟨1, by decide⟩

/-! ### The total-ordering engine

Modelled from the spec (section 4.3) — the engine's implementation file
is absent from the staged sources — with its behaviour pinned to the
engine unit tests in src/README.md (`TestBlockRelation`,
`TestEarlyDeliver`, `TestBasicCaseForK2`, `TestBasicCaseForK0`,
`TestNotValidDAGDetection`).  Pinned points, where they deviate from the
spec's wording:

* a pending block is a candidate when none of its acks is still pending
  (not the spec's "first acker from its own chain": in `TestEarlyDeliver`
  the only candidate before delivery is the genesis `b00` although `b10`
  has own-chain ackers);
* the deliver set is the set of candidates whose acking node set has at
  least `phi` members (in `TestBasicCaseForK0` only the candidate with
  three acking chains is delivered);
* early delivery fires when every candidate's acking node set has more
  than `phi` members (the tests pin the threshold to 4 at
  `K = 2, phi = 3, num_chains = 5`; the spec's "equal to num_chains"
  would never fire there), non-early delivery when every one of the
  `num_chains` chains is in the global vector's own acking node set. -/

/-- A block as the ordering engine sees it. -/
structure TOBlock where
  hash : Nat
  proposer : Nat
  height : Nat
  acks : List Nat
deriving DecidableEq

/-- The engine state: parameters, pending blocks in admission order, the
`acked` map (hash to the hashes of pending blocks that transitively
acknowledge it, in insertion order) and the candidate set (hashes, in
promotion order). -/
structure TOState where
  kParam : Nat
  phi : Nat
  numChains : Nat
  pendings : List TOBlock
  ackedMap : List (Nat × List Nat)
  candidates : List Nat
deriving DecidableEq

def hashesOf (l : List TOBlock) : List Nat := l.map fun b => b.hash

def findBlock (pend : List TOBlock) (h : Nat) : Option TOBlock :=
  pend.find? fun b => b.hash == h

/-- Append an element unless present (order-preserving set insertion). -/
def insertNew (l : List Nat) (x : Nat) : List Nat :=
  if l.contains x then l else l ++ [x]

/-- One expansion step of the transitive-ack closure: add the direct acks
of every member that is a pending block. -/
def closureStep (pend : List TOBlock) (s : List Nat) : List Nat :=
  s.foldl
    (fun acc h =>
      match findBlock pend h with
      | some b => b.acks.foldl insertNew acc
      | none => acc)
    s

def closureIter (pend : List TOBlock) : Nat → List Nat → List Nat
  | 0, s => s
  | fuel + 1, s => closureIter pend fuel (closureStep pend s)

/-- The hashes a block with direct acks `acks` transitively acknowledges,
walking only through blocks currently pending — `buildBlockRelation`'s
`populateAcked` with its visited set; the iteration count bounds the
closure and makes ack cycles safe. -/
def ancestors (pend : List TOBlock) (acks : List Nat) : List Nat :=
  closureIter pend (pend.length + 1) (acks.foldl insertNew [])

/-- Record `acker` as acking `key` (creating the entry as the source
does). -/
def ackedInsert (m : List (Nat × List Nat)) (key acker : Nat) :
    List (Nat × List Nat) :=
  match m with
  | [] => [(key, [acker])]
  | (k, v) :: rest =>
    if k == key then (k, insertNew v acker) :: rest
    else (k, v) :: ackedInsert rest key acker

def ackedLookup (m : List (Nat × List Nat)) (key : Nat) : List Nat :=
  ((m.find? fun p => p.1 == key).map fun p => p.2).getD []

def chainBlocks (pend : List TOBlock) (j : Nat) : List TOBlock :=
  pend.filter fun b => b.proposer == j

/-- `{minHeight, count}` of a non-empty block list. -/
def statsOf (l : List TOBlock) : Option AsvRec :=
  match l with
  | [] => none
  | b :: rest => some ⟨(rest.map fun x => x.height).foldl min b.height, l.length⟩

/-- The global acking-status vector: per chain, the minimum height and
count of its pending blocks. -/
def globalOf (s : TOState) : ASV :=
  (List.range s.numChains).filterMap fun j =>
    (statsOf (chainBlocks s.pendings j)).map fun r => (j, r)

/-- The blocks of chain `j` contributing to candidate `C`'s status
vector: the candidate itself on its own chain, plus every pending block
of chain `j` recorded as acking `C`. -/
def ackersOf (s : TOState) (C : TOBlock) (j : Nat) : List TOBlock :=
  (if C.proposer == j then [C] else []) ++
    (chainBlocks s.pendings j).filter fun b =>
      (ackedLookup s.ackedMap C.hash).contains b.hash

/-- Candidate `C`'s acking-status vector. -/
def vecOf (s : TOState) (C : TOBlock) : ASV :=
  (List.range s.numChains).filterMap fun j =>
    (statsOf (ackersOf s C j)).map fun r => (j, r)

def candBlocks (s : TOState) : List TOBlock :=
  s.candidates.filterMap fun h => findBlock s.pendings h

/-- The candidates eligible for the deliver set: acking node set of size
at least `phi`. -/
def deliverable (s : TOState) : List TOBlock :=
  (candBlocks s).filter fun C =>
    s.phi ≤ (getAckingNodeSet (vecOf s C) (globalOf s) s.kParam).length

/-- The early-delivery gate: candidates exist and every candidate's
acking node set has more than `phi` members. -/
def earlyGate (s : TOState) : Bool :=
  !(candBlocks s).isEmpty &&
    (candBlocks s).all fun C =>
      s.phi + 1 ≤ (getAckingNodeSet (vecOf s C) (globalOf s) s.kParam).length

/-- The non-early gate: every one of the `numChains` chains is in the
global vector's own acking node set (each chain has contributed a run of
more than `K` consecutive blocks). -/
def nonEarlyGate (s : TOState) : Bool :=
  (getAckingNodeSet (globalOf s) (globalOf s) s.kParam).length == s.numChains

def insertSorted (b : TOBlock) : List TOBlock → List TOBlock
  | [] => [b]
  | x :: rest => if b.hash ≤ x.hash then b :: x :: rest else x :: insertSorted b rest

/-- Deliver sets are emitted sorted ascending by hash. -/
def sortByHash (l : List TOBlock) : List TOBlock := l.foldr insertSorted []

/-- Remove a delivered set from every structure (the source's `clean`:
pendings, `acked` keys, candidate set) and promote every pending block
none of whose acks is still pending. -/
def removeDelivered (s : TOState) (del : List TOBlock) : TOState :=
  let delHashes := hashesOf del
  let pendings2 := s.pendings.filter fun b => !(delHashes.contains b.hash)
  let acked2 := s.ackedMap.filter fun p => !(delHashes.contains p.1)
  let survivors := s.candidates.filter fun h => !(delHashes.contains h)
  let promoted := (pendings2.filter fun b =>
    !(survivors.contains b.hash) &&
      b.acks.all fun a => !((hashesOf pendings2).contains a)).map fun b => b.hash
  { s with pendings := pendings2, ackedMap := acked2,
           candidates := survivors ++ promoted }

/-- `processBlock`: admit a block (rejecting a height that falls inside
its chain's already-admitted run, the source's `ErrNotValidDAG`), update
the ack relation, promote the block when none of its acks is pending,
and emit a deliver set when a gate passes.  Returns the new state, the
delivered blocks sorted by hash, and the early flag. -/
def processBlock (s : TOState) (b : TOBlock) :
    Except Unit (TOState × List TOBlock × Bool) :=
  let err :=
    match statsOf (chainBlocks s.pendings b.proposer) with
    | some r => decide (b.height < r.minHeight + r.count)
    | none => false
  if err then Except.error () else
  let pendings2 := s.pendings ++ [b]
  let anc := ancestors pendings2 b.acks
  let acked2 := anc.foldl (fun m x => ackedInsert m x b.hash) s.ackedMap
  let isCand := b.acks.all fun a => !((hashesOf pendings2).contains a)
  let candidates2 := if isCand then s.candidates ++ [b.hash] else s.candidates
  let s2 := { s with pendings := pendings2, ackedMap := acked2,
                     candidates := candidates2 }
  if earlyGate s2 then
    let del := sortByHash (deliverable s2)
    Except.ok (removeDelivered s2 del, del, true)
  else if nonEarlyGate s2 && !(deliverable s2).isEmpty then
    let del := sortByHash (deliverable s2)
    Except.ok (removeDelivered s2 del, del, false)
  else Except.ok (s2, [], false)

/-- Run the engine over a block sequence, collecting each step's
delivered hashes and early flag. -/
def runTO : TOState → List TOBlock → Except Unit (TOState × List (List Nat × Bool))
  | s, [] => Except.ok (s, [])
  | s, b :: rest =>
    match processBlock s b with
    | Except.error e => Except.error e
    | Except.ok (s2, del, early) =>
      match runTO s2 rest with
      | Except.error e => Except.error e
      | Except.ok (sf, outs) => Except.ok (sf, (hashesOf del, early) :: outs)

/-- A fresh engine with `K = 2`, `phi = 3`, `num_chains = 5`
(`newTotalOrdering(2, 3, 5)` of `TestEarlyDeliver`). -/
def initTO : TOState := ⟨2, 3, 5, [], [], []⟩

/-- The twelve blocks of the early-deliver scenario, in the test's
admission order: chain 0's line `A(h0) <- h1 <- h2` and, on each of
chains 1-3, a three-block line whose genesis acks `A` (hash 1). -/
def earlyDeliverBlocks : List TOBlock :=
  [⟨1, 0, 0, []⟩, ⟨2, 0, 1, [1]⟩, ⟨3, 0, 2, [2]⟩,
   ⟨11, 1, 0, [1]⟩, ⟨12, 1, 1, [11]⟩, ⟨13, 1, 2, [12]⟩,
   ⟨21, 2, 0, [1]⟩, ⟨22, 2, 1, [21]⟩, ⟨23, 2, 2, [22]⟩,
   ⟨31, 3, 0, [1]⟩, ⟨32, 3, 1, [31]⟩, ⟨33, 3, 2, [32]⟩]

/-- The engine state after the whole scenario: `A` (hash 1) gone from
every structure, the four candidates being chain 0's height-1 block
(hash 2) and the height-0 blocks of chains 1-3 (hashes 11, 21, 31). -/
def c5FinalExpected : TOState :=
  ⟨2, 3, 5,
   [⟨2, 0, 1, [1]⟩, ⟨3, 0, 2, [2]⟩,
    ⟨11, 1, 0, [1]⟩, ⟨12, 1, 1, [11]⟩, ⟨13, 1, 2, [12]⟩,
    ⟨21, 2, 0, [1]⟩, ⟨22, 2, 1, [21]⟩, ⟨23, 2, 2, [22]⟩,
    ⟨31, 3, 0, [1]⟩, ⟨32, 3, 1, [31]⟩, ⟨33, 3, 2, [32]⟩],
   [(2, [3]), (11, [12, 13]), (12, [13]), (21, [22, 23]), (22, [23]),
    (31, [32, 33]), (32, [33])],
   [2, 11, 21, 31]⟩

/-- The per-step outputs of the scenario: no delivery for the first
eleven blocks, then the single deliver set `[A]` with `early = true`. -/
def c5OutsExpected : List (List Nat × Bool) :=
  [([], false), ([], false), ([], false), ([], false), ([], false),
   ([], false), ([], false), ([], false), ([], false), ([], false),
   ([], false), ([1], true)]

/-- Claim C5 (amended).  With `K = 2, phi = 3, num_chains = 5`, admitting
the twelve scenario blocks yields exactly one delivery — the one-block
deliver set `[A]`, `early = true`, on the final block — and afterwards
there are exactly four candidates: chain 0's height-1 block and the
height-0 genesis blocks of chains 1-3 (not the height-1 blocks of chains
0-3); `A` is absent from the pendings, from the `acked` map and from the
candidate set. -/
theorem early_deliver_behaviour :
    runTO initTO earlyDeliverBlocks = Except.ok (c5FinalExpected, c5OutsExpected) ∧
      (c5OutsExpected.filter fun o => !o.1.isEmpty) = [([1], true)] ∧
      c5FinalExpected.candidates = [2, 11, 21, 31] ∧
      (hashesOf c5FinalExpected.pendings).contains 1 = false ∧
      (c5FinalExpected.ackedMap.map fun p => p.1).contains 1 = false ∧
      c5FinalExpected.candidates.contains 1 = false := by
  refine ⟨rfl, by decide, rfl, by decide, by decide, by decide⟩

/-- Claim C5, counterexample.  After the scenario the candidate set is
not "the h=1 blocks of chains 0..3": the height-0 genesis of chain 1
(hash 11) is a candidate while chain 1's height-1 block (hash 12) is
not. -/
theorem early_deliver_counterexample :
    runTO initTO earlyDeliverBlocks = Except.ok (c5FinalExpected, c5OutsExpected) ∧
      c5FinalExpected.candidates.contains 11 = true ∧
      findBlock c5FinalExpected.pendings 11 = some ⟨11, 1, 0, [1]⟩ ∧
      (⟨11, 1, 0, [1]⟩ : TOBlock).height ≠ 1 ∧
      c5FinalExpected.candidates.contains 12 = false ∧
      findBlock c5FinalExpected.pendings 12 = some ⟨12, 1, 1, [11]⟩ := by
  refine ⟨rfl, by decide, rfl, by decide, by decide, rfl⟩

/-! ### Engine validation against the remaining unit tests -/

/-- `TestBlockRelation` (src/README.md lines 897-944): chain 0's line
`A <- B <- C` under `newTotalOrdering(1, 3, 5)`; after the three
admissions `acked[A] = {B, C}`, `acked[B] = {C}`, no entry for `C`, and
nothing is delivered. -/
theorem block_relation_matches_unit_test :
    runTO ⟨1, 3, 5, [], [], []⟩ [⟨1, 0, 0, []⟩, ⟨2, 0, 1, [1]⟩, ⟨3, 0, 2, [2]⟩] =
      Except.ok
        (⟨1, 3, 5, [⟨1, 0, 0, []⟩, ⟨2, 0, 1, [1]⟩, ⟨3, 0, 2, [2]⟩],
          [(1, [2, 3]), (2, [3])], [1]⟩,
         [([], false), ([], false), ([], false)]) := rfl

/-- `TestNotValidDAGDetection` (src/README.md lines 1101-1117): a
height-0 block admitted after another height-0 block of the same chain is
rejected with `ErrNotValidDAG`. -/
theorem not_valid_dag_matches_unit_test :
    runTO ⟨1, 3, 5, [], [], []⟩ [⟨5, 0, 0, []⟩, ⟨6, 0, 0, []⟩] =
      Except.error () := rfl

/-- The blocks of `TestBasicCaseForK0` (src/README.md lines 1566-1675) in
admission order; hashes encode chain and height as `10 * chain + height`
offset by one. -/
def k0Blocks : List TOBlock :=
  [⟨1, 0, 0, []⟩, ⟨11, 1, 0, []⟩, ⟨21, 2, 0, []⟩, ⟨31, 3, 0, [21]⟩,
   ⟨2, 0, 1, [1, 11]⟩, ⟨12, 1, 1, [11, 21]⟩, ⟨22, 2, 1, [21]⟩,
   ⟨32, 3, 1, [22, 31]⟩, ⟨41, 4, 0, [32]⟩]

/-- `TestBasicCaseForK0`: under `newTotalOrdering(0, 3, 5)` the ninth
block triggers a non-early delivery of exactly `{b20}` (hash 21), and
afterwards `b10` (hash 11) and `b30` (hash 31) are candidates while `b20`
has left the working set. -/
theorem k0_matches_unit_test :
    (runTO ⟨0, 3, 5, [], [], []⟩ k0Blocks).map (fun r => r.2) =
        Except.ok
          [([], false), ([], false), ([], false), ([], false), ([], false),
           ([], false), ([], false), ([], false), ([21], false)] ∧
      (runTO ⟨0, 3, 5, [], [], []⟩ k0Blocks).map
          (fun r => r.1.candidates.contains 11) = Except.ok true ∧
      (runTO ⟨0, 3, 5, [], [], []⟩ k0Blocks).map
          (fun r => r.1.candidates.contains 31) = Except.ok true ∧
      (runTO ⟨0, 3, 5, [], [], []⟩ k0Blocks).map
          (fun r => (hashesOf r.1.pendings).contains 21) = Except.ok false :=
  ⟨rfl, rfl, rfl, rfl⟩

/-- The blocks of `TestBasicCaseForK2` (src/README.md lines 1244-1564) in
admission order. -/
def k2Blocks : List TOBlock :=
  [⟨1, 0, 0, []⟩, ⟨11, 1, 0, []⟩, ⟨12, 1, 1, [11, 1]⟩, ⟨2, 0, 1, [1, 12]⟩,
   ⟨21, 2, 0, [11]⟩, ⟨31, 3, 0, [21]⟩, ⟨22, 2, 1, [21, 2]⟩,
   ⟨32, 3, 1, [31, 22]⟩, ⟨33, 3, 2, [32]⟩, ⟨23, 2, 2, [22, 33]⟩,
   ⟨13, 1, 2, [12, 22]⟩, ⟨3, 0, 2, [2, 22]⟩, ⟨14, 1, 3, [13, 23]⟩,
   ⟨4, 0, 3, [3, 23]⟩, ⟨41, 4, 0, []⟩, ⟨42, 4, 1, [41]⟩, ⟨43, 4, 2, [42]⟩,
   ⟨15, 1, 4, [14]⟩, ⟨24, 2, 3, [23]⟩]

/-- `TestBasicCaseForK2`: under `newTotalOrdering(2, 3, 5)` the model
reproduces the test's three deliveries in order — `{b00, b10}` early on
`b02`, `{b11, b20}` early on `b03`, `{b01, b30}` non-early on `b23` — and
afterwards `b21` (hash 22) and `b40` (hash 41) are candidates while `b01`
and `b30` have left the working set. -/
theorem k2_matches_unit_test :
    (runTO ⟨2, 3, 5, [], [], []⟩ k2Blocks).map (fun r => r.2) =
        Except.ok
          [([], false), ([], false), ([], false), ([], false), ([], false),
           ([], false), ([], false), ([], false), ([], false), ([], false),
           ([], false), ([1, 11], true), ([], false), ([12, 21], true),
           ([], false), ([], false), ([], false), ([], false),
           ([2, 31], false)] ∧
      (runTO ⟨2, 3, 5, [], [], []⟩ k2Blocks).map
          (fun r => r.1.candidates.contains 22) = Except.ok true ∧
      (runTO ⟨2, 3, 5, [], [], []⟩ k2Blocks).map
          (fun r => r.1.candidates.contains 41) = Except.ok true ∧
      (runTO ⟨2, 3, 5, [], [], []⟩ k2Blocks).map
          (fun r => (hashesOf r.1.pendings).contains 2) = Except.ok false ∧
      (runTO ⟨2, 3, 5, [], [], []⟩ k2Blocks).map
          (fun r => (hashesOf r.1.pendings).contains 31) = Except.ok false :=
  ⟨rfl, rfl, rfl, rfl, rfl⟩

end TangerineSpec
